import Mathlib

/-!
Verification of the ASDFBurnTracker server (Express/Node source).

The definitions below are a shallow embedding of the JavaScript source.
The primary source is the final revision of the server
(src/unnamed/part_001, lines 237-654); the backoff fetcher is identical
in src/server.js and the other revisions.  Network, filesystem, clock
and randomness effects are passed in explicitly as parameters; JS
numbers are modelled as rationals, BigInt as integers, and missing
JSON fields as Option values.
-/

namespace ASDFBurnTracker

/-! ## Configuration constants (part_001 lines 285-294) -/

def TOKEN_MINT : String := "9zB5wRarXMj86MymwLumSKA1Dx35zPqqKfcZtK1Spump"

def TOKEN_TOTAL_SUPPLY : ℚ := 1000000000

def TRACKED_WALLET : String := "vcGYZbvDid6cRUkCCqcWpBxow73TLpmY6ipmDUtrTF8"

def PURCHASE_SOURCE_ADDRESS : String := "DuhRX5JTPtsWU5n44t8tcFEfmzy2Eu27p4y6z8Rhf2bb"

/-! ## Backoff fetcher (part_001 lines 301-324, identical in server.js 49-74)

`exponentialBackoffFetch` performs up to `maxRetries` attempts.  Each
attempt either yields an HTTP response with a status code or throws a
network/transport error.  We model the sequence of attempt outcomes as
a function of the attempt index, and the `Math.random() * 500` draws
as a function `rand` of the attempt index.  The returned value records
the JS result: a returned response (`ok`), an escaped exception
(`err`, carrying the attempt count of the wrapping message
"API failed after N attempts" and the inner error), or the implicit
`undefined` that the async function resolves with when the `for` loop
runs off the end (`undef`).  The list of backoff delays slept between
attempts is returned alongside. -/

inductive AttemptOutcome where
  | response (status : Nat)
  | networkError (msg : String)
deriving DecidableEq, Repr

inductive InnerErr where
  | network (msg : String)
  | nonRetryableStatus (status : Nat)
deriving DecidableEq, Repr

inductive FetchResult where
  | ok (status : Nat)
  | err (attempts : Nat) (inner : InnerErr)
  | undef
deriving DecidableEq, Repr

/-- The retry loop.  The second `Nat` is the remaining number of loop
iterations (`maxRetries - attempt`); the invariant at every call from
`exponentialBackoffFetch` is `attempt + fuel = maxRetries`, so
`fuel = 0` inside the body means `attempt = maxRetries - 1`, which is
the condition the JS `catch` block tests before wrapping the error. -/
def ebfAux (out : Nat → AttemptOutcome) (rand : Nat → ℚ) :
    Nat → Nat → FetchResult × List ℚ
  | _, 0 => (FetchResult.undef, [])
  | attempt, fuel + 1 =>
    match out attempt with
    | AttemptOutcome.response s =>
      if 200 ≤ s ∧ s < 300 then
        (FetchResult.ok s, [])
      else if s = 429 ∨ 500 ≤ s then
        let d : ℚ := 2 ^ attempt * 1000 + rand attempt
        let r := ebfAux out rand (attempt + 1) fuel
        (r.1, d :: r.2)
      else
        -- `throw new Error("API failed with non-retryable status")` is
        -- raised inside the `try`, so it lands in the same `catch`
        -- block as a network error.
        if fuel = 0 then
          (FetchResult.err (attempt + 1) (InnerErr.nonRetryableStatus s), [])
        else
          let d : ℚ := 2 ^ attempt * 500 + rand attempt
          let r := ebfAux out rand (attempt + 1) fuel
          (r.1, d :: r.2)
    | AttemptOutcome.networkError m =>
      if fuel = 0 then
        (FetchResult.err (attempt + 1) (InnerErr.network m), [])
      else
        let d : ℚ := 2 ^ attempt * 500 + rand attempt
        let r := ebfAux out rand (attempt + 1) fuel
        (r.1, d :: r.2)

def exponentialBackoffFetch (out : Nat → AttemptOutcome) (rand : Nat → ℚ)
    (maxRetries : Nat) : FetchResult × List ℚ :=
  ebfAux out rand 0 maxRetries

/-! ## Transaction data model (shapes from §6 of the design and the
field accesses in part_001).  Fields the code guards with `|| []`,
`== null`, falsiness or optional chaining are modelled as `Option`. -/

/-- A JS number as observed by `Number.isFinite`: either a finite
value (modelled as a rational) or one of the non-finite values. -/
inductive JsNum where
  | num (q : ℚ)
  | nan
  | inf
  | ninf
deriving DecidableEq, Repr

def JsNum.isFinite : JsNum → Bool
  | JsNum.num _ => true
  | _ => false

/-- The numeric value used in arithmetic once `Number.isFinite` has
been checked; only ever read on the `num` branch. -/
def JsNum.val : JsNum → ℚ
  | JsNum.num q => q
  | _ => 0

structure NativeTransfer where
  toUserAccount : Option String
  amount : Option ℤ
deriving DecidableEq, Repr

structure TokenTransfer where
  mint : Option String
  toUserAccount : Option String
  fromUserAccount : Option String
  tokenAmount : Option JsNum
deriving DecidableEq, Repr

structure Tx where
  timestamp : ℤ
  nativeTransfers : Option (List NativeTransfer)
  tokenTransfers : Option (List TokenTransfer)
  signature : Option String
deriving DecidableEq, Repr

structure Receipt where
  lamports : ℤ
  timestamp : ℤ
deriving DecidableEq, Repr

structure PricePoint where
  tMs : ℚ
  priceUsd : ℚ
deriving DecidableEq, Repr

/-! ## extractSolReceipts (part_001 lines 401-415)

Amounts are accumulated as BigInt (`ℤ` here); the single conversion to
decimal SOL units happens at the end: `Number(totalLamports) / 1e9`. -/

def extractReceiptsStep (wallet : String) (tx : Tx) (acc : List Receipt × ℤ) :
    List Receipt × ℤ :=
  (tx.nativeTransfers.getD []).foldl (fun acc nt =>
    if nt.toUserAccount = some wallet then
      match nt.amount with
      | none => acc
      | some lamports =>
        if lamports ≤ 0 then acc
        else (acc.1 ++ [Receipt.mk lamports tx.timestamp], acc.2 + lamports)
    else acc) acc

def extractSolReceipts (transactions : List Tx) (wallet : String) :
    List Receipt × ℚ :=
  let r := transactions.foldl (fun acc tx => extractReceiptsStep wallet tx acc) ([], 0)
  (r.1, (r.2 : ℚ) / 1000000000)

/-- Specification-side view of one native transfer: the receipt it
yields, if any — it must be inbound to `wallet` with a present,
strictly positive integer amount. -/
def receiptOfNT (wallet : String) (ts : ℤ) (nt : NativeTransfer) : Option Receipt :=
  if nt.toUserAccount = some wallet then
    match nt.amount with
    | none => none
    | some lamports =>
      if lamports ≤ 0 then none
      else some (Receipt.mk lamports ts)
  else none

/-- Specification-side view of one transaction's qualifying receipts,
in iteration order. -/
def receiptsOf (wallet : String) (tx : Tx) : List Receipt :=
  (tx.nativeTransfers.getD []).filterMap (receiptOfNT wallet tx.timestamp)

/-! ## nearestPrice and computeLifetimeUsd (part_001 lines 451-470)

`nearestPrice` is the local helper closed over `priceSeries` inside
`computeLifetimeUsd`: linear scan keeping the first point of minimal
absolute time distance.  `computeLifetimeUsd` is only ever called with
a non-empty series; on an empty series the embedded function returns 0
(matching the guard in its caller). -/

def nearestPriceAux (targetMs : ℚ) : List PricePoint → ℚ × ℚ → ℚ × ℚ
  | [], acc => acc
  | p :: rest, acc =>
    let diff := |targetMs - p.tMs|
    if diff < acc.2 then nearestPriceAux targetMs rest (p.priceUsd, diff)
    else nearestPriceAux targetMs rest acc

def nearestPrice (priceSeries : List PricePoint) (targetMs : ℚ) : ℚ :=
  match priceSeries with
  | [] => 0
  | p0 :: rest =>
    (nearestPriceAux targetMs rest (p0.priceUsd, |targetMs - p0.tMs|)).1

def computeLifetimeUsd (receipts : List Receipt) (priceSeries : List PricePoint) : ℚ :=
  if receipts.length = 0 ∨ priceSeries.length = 0 then 0
  else
    receipts.foldl (fun totalUsd r =>
      let tMs : ℚ := (r.timestamp : ℚ) * 1000
      let priceUsd := nearestPrice priceSeries tMs
      let solAmount : ℚ := (r.lamports : ℚ) / 1000000000
      totalUsd + solAmount * priceUsd) 0

/-! ## computeTokenFlows (part_001 lines 472-488) -/

def computeTokenFlows (transactions : List Tx) (wallet mint : String) : ℚ :=
  transactions.foldl (fun acc tx =>
    (tx.tokenTransfers.getD []).foldl (fun acc tt =>
      if tt.mint ≠ some mint then acc
      else if tt.toUserAccount ≠ some wallet then acc
      else
        let amt := tt.tokenAmount.getD (JsNum.num 0)
        if amt.isFinite = false ∨ amt.val ≤ 0 then acc
        else if tt.fromUserAccount.getD "" = PURCHASE_SOURCE_ADDRESS then acc + amt.val
        else acc) acc) 0

/-- Specification-side view of one token transfer: the amount it
contributes to `purchasedFromSource`, if any — the mint must match,
the destination must be the tracked wallet, the amount must be a
finite strictly positive number, and the source address (with a
missing source read as the empty string, as `tt.fromUserAccount || ""`
does) must be exactly the configured purchase-source address. -/
def purchaseOfTT (wallet mint : String) (tt : TokenTransfer) : Option ℚ :=
  if tt.mint ≠ some mint then none
  else if tt.toUserAccount ≠ some wallet then none
  else
    let amt := tt.tokenAmount.getD (JsNum.num 0)
    if amt.isFinite = false ∨ amt.val ≤ 0 then none
    else if tt.fromUserAccount.getD "" = PURCHASE_SOURCE_ADDRESS then some amt.val
    else none

/-- Specification-side view of one transaction's counted purchase
amounts, in iteration order. -/
def purchasesOf (wallet mint : String) (tx : Tx) : List ℚ :=
  (tx.tokenTransfers.getD []).filterMap (purchaseOfTT wallet mint)

/-! ## fetchAllEnhancedTransactions (part_001 lines 381-399)

The upstream is modelled as a function from the request index to the
JSON body of that request's response: `none` for a non-array body,
`some batch` for an array.  Besides the accumulated transactions, the
embedding returns the list of `before` cursors actually sent, one per
request made (`none` when the parameter was omitted). -/

def fetchAllAux (pages : Nat → Option (List Tx)) :
    Nat → Nat → Option String → List Tx × List (Option String)
  | 0, _, _ => ([], [])
  | fuel + 1, page, before =>
    match pages page with
    | none => ([], [before])
    | some batch =>
      if batch.length = 0 then ([], [before])
      else
        match batch.getLast? with
        | none => (batch, [before])
        | some last =>
          if last.signature.getD "" = "" then (batch, [before])
          else if batch.length < 90 then (batch, [before])
          else
            let r := fetchAllAux pages fuel (page + 1) (some (last.signature.getD ""))
            (batch ++ r.1, before :: r.2)

def fetchAllEnhancedTransactions (pages : Nat → Option (List Tx)) (maxPages : Nat) :
    List Tx × List (Option String) :=
  fetchAllAux pages maxPages 0 none

/-- What a page contributes to the accumulated result: its elements if
it is an array (pushed before the stop checks run), nothing if the
body is not an array. -/
def pageContrib (b : Option (List Tx)) : List Tx := b.getD []

/-- Whether a page lets pagination continue: an array with at least
one element, whose last element carries a truthy signature, of full
page size (at least 90 items). -/
def pageContinues (b : Option (List Tx)) : Bool :=
  match b with
  | none => false
  | some batch =>
    match batch.getLast? with
    | none => false
    | some last =>
      if last.signature.getD "" = "" then false
      else if batch.length < 90 then false
      else true

/-- The cursor the loop sends with request `i`: nothing for the first
request, and the signature of the last transaction of the previous
page afterwards. -/
def pageCursor (pages : Nat → Option (List Tx)) : Nat → Option String
  | 0 => none
  | i + 1 =>
    match ((pages i).getD []).getLast? with
    | none => none
    | some last => some (last.signature.getD "")

/-! ## Historical price memoizer (part_001 lines 417-449)

The on-disk state is modelled as `Option FileInfo`: `none` when the
file does not exist (`fs.stat` throws), otherwise the file's mtime and
its parsed content (`none` content when `fs.readFile`/`JSON.parse`
would throw).  The network fetch is a parameter; `writeOk` says
whether `fs.writeFile` succeeds.  The output records the returned
series, whether a network fetch was attempted, and the complete series
durably written to disk by this call, if any. -/

def HISTORICAL_CACHE_DURATION_MS : ℤ := 6 * 60 * 60 * 1000

structure FileInfo where
  mtimeMs : ℤ
  content : Option (List PricePoint)
deriving DecidableEq, Repr

structure HistFetchOut where
  result : List PricePoint
  fetched : Bool
  written : Option (List PricePoint)
deriving DecidableEq, Repr

def fetchSolHistoricalPrices (fileInfo : Option FileInfo) (nowMs : ℤ)
    (fetchRes : Except Unit (List PricePoint)) (writeOk : Bool) : HistFetchOut :=
  -- `cachedData` starts null; its only assignment in the source is
  -- immediately followed by an early return, so every path that
  -- reaches the network fetch still carries `none`, and the catch
  -- block's `cachedData || []` evaluates `none.getD []`.
  let cachedData : Option (List PricePoint) := none
  let fromNetwork : Option (List PricePoint) → HistFetchOut := fun cached =>
    match fetchRes with
    | Except.ok prices =>
      if writeOk then HistFetchOut.mk prices true (some prices)
      else HistFetchOut.mk (cached.getD []) true none
    | Except.error _ => HistFetchOut.mk (cached.getD []) true none
  match fileInfo with
  | none => fromNetwork cachedData
  | some fi =>
    if nowMs - fi.mtimeMs < HISTORICAL_CACHE_DURATION_MS then
      match fi.content with
      | some prices => HistFetchOut.mk prices false none
      | none => fromNetwork cachedData
    else fromNetwork cachedData

/-! ## Cache snapshot and the two refresh cycles (part_001 lines
265-270, 346-370, 490-513, 521-594)

Each cycle is embedded as a state transformer on the snapshot, with
every upstream interaction passed in as an explicit parameter.  In
part_001, `fetchSolHistoricalPrices` and `fetchASDForecastStats` catch
internally and never throw, so only the supply fetch and the
transaction-history fetch can abort the fast cycle; both are modelled
as `Except`. -/

structure BurnStats where
  burnedAmount : ℚ
  currentSupply : ℚ
  burnedPercent : ℚ
deriving DecidableEq, Repr

structure WalletStats where
  ctoFeesSol : ℚ
  ctoFeesUsd : ℚ
  purchasedFromSource : ℚ
  tokenPriceUsd : ℚ
  solPriceUsd : ℚ
deriving DecidableEq, Repr

structure ForecastStats where
  totalVolume : ℚ
  totalFees : ℚ
  totalWinnings : ℚ
  totalLifetimeUsers : ℚ
deriving DecidableEq, Repr

structure Cache where
  burn : BurnStats
  wallet : WalletStats
  forecast : ForecastStats
  lastUpdated : ℤ
deriving DecidableEq, Repr

/-- The fast (1-minute) cycle, part_001 lines 521-569.  Note the order
of effects in the source: `cache.burn` is assigned as soon as the
supply fetch succeeds, before the transaction-history fetch runs, and
the catch block only advances `lastUpdated`. -/
def fetchAndCacheData (supplyRes : Except Unit ℚ) (txsRes : Except Unit (List Tx))
    (hist : List PricePoint) (forecastStats : ForecastStats)
    (c : Cache) (now : ℤ) : Cache :=
  match supplyRes with
  | Except.error _ => { c with lastUpdated := now }
  | Except.ok currentSupply =>
    let burned := TOKEN_TOTAL_SUPPLY - currentSupply
    let burnedPercent := burned / TOKEN_TOTAL_SUPPLY * 100
    let c1 := { c with burn := BurnStats.mk burned currentSupply burnedPercent }
    match txsRes with
    | Except.error _ => { c1 with lastUpdated := now }
    | Except.ok txs =>
      let er := extractSolReceipts txs TRACKED_WALLET
      let lifetimeUsd := if 0 < er.1.length then computeLifetimeUsd er.1 hist else 0
      let purchased := computeTokenFlows txs TRACKED_WALLET TOKEN_MINT
      { c1 with
        wallet := WalletStats.mk er.2 lifetimeUsd purchased
          c.wallet.tokenPriceUsd c.wallet.solPriceUsd,
        forecast := forecastStats,
        lastUpdated := now }

/-- part_001 lines 346-370: `jupJson?.[mint]?.usdPrice || 0`, with the
whole fetch wrapped in a try that degrades to 0. -/
def fetchJupiterTokenPrice (resp : Except Unit (Option ℚ)) : ℚ :=
  match resp with
  | Except.error _ => 0
  | Except.ok usdPrice => usdPrice.getD 0

/-- part_001 lines 328-344: `json?.solana?.usd || 0`, throwing (and so
returning 0) unless the price is strictly positive. -/
def fetchCurrentSolPrice (resp : Except Unit (Option ℚ)) : ℚ :=
  match resp with
  | Except.error _ => 0
  | Except.ok usd => if 0 < usd.getD 0 then usd.getD 0 else 0

/-- The slow (10-minute) price cycle, part_001 lines 574-594: a no-op
unless the cycle counter is a multiple of 10, otherwise it writes both
spot prices (0 on failed or zero/missing upstream quotes) and advances
the timestamp. -/
def fetchTokenPriceStaggered (cacheCycleCount : Nat)
    (jupResp solResp : Except Unit (Option ℚ)) (c : Cache) (now : ℤ) : Cache :=
  if cacheCycleCount % 10 ≠ 0 then c
  else
    let tokenPriceUsd := fetchJupiterTokenPrice jupResp
    let solPriceUsd := fetchCurrentSolPrice solResp
    { c with
      wallet := { c.wallet with tokenPriceUsd := tokenPriceUsd, solPriceUsd := solPriceUsd },
      lastUpdated := now }

/-- Claim C1: the claim says that when every one of the `maxRetries`
attempts yields HTTP 429 (or 5xx) the call fails by raising an error
after backing off with delay 2^attempt * 1000ms + random between
attempts.  The code instead runs the loop to completion and resolves
with `undefined`: no error is ever raised on the all-429 path (the
"API failed after N attempts" throw is reachable only from the `catch`
block, which an HTTP 429/5xx response never enters).  This theorem
evaluates the embedded fetcher at the failing input (five consecutive
429 responses, random draws 0): the result is `undef`, the recorded
backoff delays are exactly 2^attempt * 1000; and, for contrast, the
second conjunct shows the within-budget 429-then-200 half of the
claim does hold. -/
theorem c1_all_429_resolves_undefined :
    exponentialBackoffFetch (fun _ => AttemptOutcome.response 429) (fun _ => 0) 5
      = (FetchResult.undef, [1000, 2000, 4000, 8000, 16000])
    ∧ (exponentialBackoffFetch
        (fun n => if n < 2 then AttemptOutcome.response 429 else AttemptOutcome.response 200)
        (fun _ => 0) 5)
      = (FetchResult.ok 200, [1000, 2000]) := by
  constructor <;> norm_num [exponentialBackoffFetch, ebfAux]

/-- Claim C2: the claim says a non-2xx status that is neither 429 nor
5xx (for example 404) makes the call fail immediately on that attempt
with no further retries.  In the code the `throw` of the
"non-retryable" error sits inside the `try` block, so the function's
own `catch` swallows it and retries with the network-error backoff
(2^attempt * 500ms); only on the final attempt is the error re-thrown,
wrapped as "API failed after 5 attempts".  This theorem evaluates the
embedded fetcher at the failing input (every attempt returns HTTP 404,
random draws 0): four retry delays are slept and the error escapes
only after all 5 attempts. -/
theorem c2_non_retryable_status_is_retried :
    exponentialBackoffFetch (fun _ => AttemptOutcome.response 404) (fun _ => 0) 5
      = (FetchResult.err 5 (InnerErr.nonRetryableStatus 404), [500, 1000, 2000, 4000]) := by
  norm_num [exponentialBackoffFetch, ebfAux]

/-! ## Helper lemmas: folds as filterMap sums -/

theorem foldl_receiptOpt (f : NativeTransfer → Option Receipt) :
    ∀ (l : List NativeTransfer) (acc : List Receipt × ℤ),
      l.foldl (fun acc nt =>
        match f nt with
        | none => acc
        | some r => (acc.1 ++ [r], acc.2 + r.lamports)) acc
      = (acc.1 ++ l.filterMap f,
         acc.2 + ((l.filterMap f).map Receipt.lamports).sum)
  | [], acc => by simp
  | nt :: l, acc => by
    rw [List.foldl_cons, List.filterMap_cons]
    cases h : f nt with
    | none => simp only [h]; rw [foldl_receiptOpt f l acc]
    | some r =>
      simp only [h]
      rw [foldl_receiptOpt f l (acc.1 ++ [r], acc.2 + r.lamports)]
      simp [add_assoc]

theorem extractReceiptsStep_eq (wallet : String) (tx : Tx) (acc : List Receipt × ℤ) :
    extractReceiptsStep wallet tx acc
      = (acc.1 ++ receiptsOf wallet tx,
         acc.2 + ((receiptsOf wallet tx).map Receipt.lamports).sum) := by
  unfold extractReceiptsStep receiptsOf
  rw [← foldl_receiptOpt (receiptOfNT wallet tx.timestamp)]
  have hfg : (fun (acc : List Receipt × ℤ) nt =>
        if nt.toUserAccount = some wallet then
          match nt.amount with
          | none => acc
          | some lamports =>
            if lamports ≤ 0 then acc
            else (acc.1 ++ [Receipt.mk lamports tx.timestamp], acc.2 + lamports)
        else acc)
      = (fun acc nt =>
        match receiptOfNT wallet tx.timestamp nt with
        | none => acc
        | some r => (acc.1 ++ [r], acc.2 + r.lamports)) := by
    funext acc nt
    unfold receiptOfNT
    by_cases h1 : nt.toUserAccount = some wallet
    · simp only [h1, if_true]
      cases nt.amount with
      | none => rfl
      | some lamports =>
        by_cases h2 : lamports ≤ 0
        · simp [h2]
        · simp [h2]
    · simp [h1]
  rw [hfg]

theorem extractSolReceipts_foldl (wallet : String) :
    ∀ (txs : List Tx) (acc : List Receipt × ℤ),
      txs.foldl (fun acc tx => extractReceiptsStep wallet tx acc) acc
        = (acc.1 ++ txs.flatMap (receiptsOf wallet),
           acc.2 + ((txs.flatMap (receiptsOf wallet)).map Receipt.lamports).sum)
  | [], acc => by simp
  | tx :: txs, acc => by
    rw [List.foldl_cons, extractReceiptsStep_eq, extractSolReceipts_foldl wallet txs _]
    simp [add_assoc]

theorem receiptsOf_pos (wallet : String) (tx : Tx) :
    ∀ r ∈ receiptsOf wallet tx, 0 < r.lamports := by
  intro r hr
  unfold receiptsOf at hr
  rw [List.mem_filterMap] at hr
  obtain ⟨nt, _, hnt⟩ := hr
  unfold receiptOfNT at hnt
  by_cases h1 : nt.toUserAccount = some wallet
  · rw [if_pos h1] at hnt
    cases hA : nt.amount with
    | none => rw [hA] at hnt; cases hnt
    | some lamports =>
      rw [hA] at hnt
      dsimp only at hnt
      by_cases h2 : lamports ≤ 0
      · rw [if_pos h2] at hnt; cases hnt
      · rw [if_neg h2] at hnt
        cases hnt
        exact not_le.mp h2
  · rw [if_neg h1] at hnt; cases hnt

/-- Claim C6: for every transaction list and wallet, `extractSolReceipts`
keeps exactly the native transfers whose destination equals the tracked
wallet and whose amount is a present, strictly positive integer (null
and non-positive amounts excluded), in iteration order and counted
once; every kept receipt has a positive amount; and the returned total
is the exact integer sum of the kept amounts, converted to decimal
units by a single division by 10^9 at the aggregate. -/
theorem c6_extractReceipts_exact (transactions : List Tx) (wallet : String) :
    (extractSolReceipts transactions wallet).1
        = transactions.flatMap (receiptsOf wallet)
    ∧ (∀ r ∈ (extractSolReceipts transactions wallet).1, 0 < r.lamports)
    ∧ (extractSolReceipts transactions wallet).2
        = ((((extractSolReceipts transactions wallet).1.map Receipt.lamports).sum : ℤ) : ℚ)
            / 1000000000 := by
  have h := extractSolReceipts_foldl wallet transactions ([], 0)
  have h1 : (extractSolReceipts transactions wallet).1
      = transactions.flatMap (receiptsOf wallet) := by
    simp only [extractSolReceipts]
    rw [h]
    rfl
  have h2 : (extractSolReceipts transactions wallet).2
      = (((0 + ((transactions.flatMap (receiptsOf wallet)).map Receipt.lamports).sum : ℤ)) : ℚ)
          / 1000000000 := by
    simp only [extractSolReceipts]
    rw [h]
  refine ⟨h1, ?_, ?_⟩
  · intro r hr
    rw [h1, List.mem_flatMap] at hr
    obtain ⟨tx, _, hrx⟩ := hr
    exact receiptsOf_pos wallet tx r hrx
  · rw [h2, h1]
    norm_num

/-- Witness for C6: on a one-transaction history with a single
qualifying transfer of 5 lamports at time 7, the receipt is kept and
its amount is strictly positive. -/
theorem c6_extractReceipts_exact_witness :
    Receipt.mk 5 7
        ∈ (extractSolReceipts
            [Tx.mk 7 (some [NativeTransfer.mk (some "w") (some 5)]) none none] "w").1
    ∧ 0 < (Receipt.mk 5 7).lamports := by
  have hmem : Receipt.mk 5 7
      ∈ (extractSolReceipts
          [Tx.mk 7 (some [NativeTransfer.mk (some "w") (some 5)]) none none] "w").1 := by
    decide
  exact ⟨hmem,
    (c6_extractReceipts_exact
      [Tx.mk 7 (some [NativeTransfer.mk (some "w") (some 5)]) none none] "w").2.1 _ hmem⟩

theorem foldl_purchaseOpt (f : TokenTransfer → Option ℚ) :
    ∀ (l : List TokenTransfer) (acc : ℚ),
      l.foldl (fun acc tt =>
        match f tt with
        | none => acc
        | some q => acc + q) acc
      = acc + (l.filterMap f).sum
  | [], acc => by simp
  | tt :: l, acc => by
    rw [List.foldl_cons, List.filterMap_cons]
    cases h : f tt with
    | none => simp only [h]; rw [foldl_purchaseOpt f l acc]
    | some q =>
      simp only [h]
      rw [foldl_purchaseOpt f l (acc + q)]
      simp [add_assoc]

theorem computeTokenFlows_inner_eq (wallet mint : String) (tx : Tx) (acc : ℚ) :
    (tx.tokenTransfers.getD []).foldl (fun acc tt =>
        if tt.mint ≠ some mint then acc
        else if tt.toUserAccount ≠ some wallet then acc
        else
          let amt := tt.tokenAmount.getD (JsNum.num 0)
          if amt.isFinite = false ∨ amt.val ≤ 0 then acc
          else if tt.fromUserAccount.getD "" = PURCHASE_SOURCE_ADDRESS then acc + amt.val
          else acc) acc
      = acc + (purchasesOf wallet mint tx).sum := by
  unfold purchasesOf
  rw [← foldl_purchaseOpt (purchaseOfTT wallet mint)]
  have hfg : (fun (acc : ℚ) tt =>
        if tt.mint ≠ some mint then acc
        else if tt.toUserAccount ≠ some wallet then acc
        else
          let amt := tt.tokenAmount.getD (JsNum.num 0)
          if amt.isFinite = false ∨ amt.val ≤ 0 then acc
          else if tt.fromUserAccount.getD "" = PURCHASE_SOURCE_ADDRESS then acc + amt.val
          else acc)
      = (fun acc tt =>
        match purchaseOfTT wallet mint tt with
        | none => acc
        | some q => acc + q) := by
    funext acc tt
    unfold purchaseOfTT
    by_cases h1 : tt.mint ≠ some mint
    · simp [h1]
    · by_cases h2 : tt.toUserAccount ≠ some wallet
      · simp [h1, h2]
      · by_cases h3 : (tt.tokenAmount.getD (JsNum.num 0)).isFinite = false
            ∨ (tt.tokenAmount.getD (JsNum.num 0)).val ≤ 0
        · simp [h1, h2, h3]
        · by_cases h4 : tt.fromUserAccount.getD "" = PURCHASE_SOURCE_ADDRESS
          · simp [h1, h2, h3, h4]
          · simp [h1, h2, h3, h4]
  rw [hfg]

theorem computeTokenFlows_foldl (wallet mint : String) :
    ∀ (txs : List Tx) (acc : ℚ),
      txs.foldl (fun acc tx =>
        (tx.tokenTransfers.getD []).foldl (fun acc tt =>
          if tt.mint ≠ some mint then acc
          else if tt.toUserAccount ≠ some wallet then acc
          else
            let amt := tt.tokenAmount.getD (JsNum.num 0)
            if amt.isFinite = false ∨ amt.val ≤ 0 then acc
            else if tt.fromUserAccount.getD "" = PURCHASE_SOURCE_ADDRESS then acc + amt.val
            else acc) acc) acc
        = acc + (txs.flatMap (purchasesOf wallet mint)).sum
  | [], acc => by simp
  | tx :: txs, acc => by
    rw [List.foldl_cons, computeTokenFlows_inner_eq, computeTokenFlows_foldl wallet mint txs _]
    simp [add_assoc]

/-- Claim C8: `computeTokenFlows` returns the sum of exactly those
token-transfer amounts whose mint matches, whose destination is the
tracked wallet, whose amount is finite and strictly positive, and
whose source address equals the configured purchase-source address by
exact string equality; a transfer whose source (read as "" when
missing) differs from the purchase source contributes nothing even
when mint and destination match, and in particular an empty-string
source never matches because the configured address is non-empty. -/
theorem c8_computeTokenFlows_exact (transactions : List Tx) (wallet mint : String) :
    computeTokenFlows transactions wallet mint
        = (transactions.flatMap (purchasesOf wallet mint)).sum
    ∧ (∀ tt : TokenTransfer, tt.fromUserAccount.getD "" ≠ PURCHASE_SOURCE_ADDRESS →
        purchaseOfTT wallet mint tt = none)
    ∧ PURCHASE_SOURCE_ADDRESS ≠ "" := by
  refine ⟨?_, ?_, ?_⟩
  · unfold computeTokenFlows
    rw [computeTokenFlows_foldl]
    simp
  · intro tt h
    unfold purchaseOfTT
    by_cases h1 : tt.mint ≠ some mint
    · simp [h1]
    · by_cases h2 : tt.toUserAccount ≠ some wallet
      · simp [h1, h2]
      · by_cases h3 : (tt.tokenAmount.getD (JsNum.num 0)).isFinite = false
            ∨ (tt.tokenAmount.getD (JsNum.num 0)).val ≤ 0
        · simp [h1, h2, h3]
        · simp [h1, h2, h3, h]
  · decide

/-- Witness for C8: the empty history sums to zero, and a transfer
with matching mint and destination but a different source address is
excluded. -/
theorem c8_computeTokenFlows_exact_witness :
    computeTokenFlows [] "w" "m" = 0
    ∧ purchaseOfTT "w" "m"
        (TokenTransfer.mk (some "m") (some "w") (some "bad") (some (JsNum.num 1))) = none := by
  have h := c8_computeTokenFlows_exact [] "w" "m"
  constructor
  · rw [h.1]
    simp
  · exact h.2.1 _ (by decide)

/-- Invariant of the nearest-price scan: either the accumulator is
already optimal over the remaining list and survives untouched, or the
scan returns some element of the remaining list that strictly improves
on the accumulator, is globally minimal over the remaining list, and
strictly beats every earlier element of the remaining list. -/
theorem nearestPriceAux_spec (t : ℚ) :
    ∀ (l : List PricePoint) (best bestDiff : ℚ),
      (nearestPriceAux t l (best, bestDiff) = (best, bestDiff)
        ∧ ∀ p ∈ l, bestDiff ≤ |t - p.tMs|)
      ∨ (∃ i : Fin l.length,
          nearestPriceAux t l (best, bestDiff)
            = ((l.get i).priceUsd, |t - (l.get i).tMs|)
          ∧ |t - (l.get i).tMs| < bestDiff
          ∧ (∀ j : Fin l.length, |t - (l.get i).tMs| ≤ |t - (l.get j).tMs|)
          ∧ (∀ j : Fin l.length, (j : ℕ) < (i : ℕ) →
              |t - (l.get i).tMs| < |t - (l.get j).tMs|)) := by
  intro l
  induction l with
  | nil =>
    intro best bestDiff
    exact Or.inl ⟨rfl, by simp⟩
  | cons p l ih =>
    intro best bestDiff
    by_cases hd : |t - p.tMs| < bestDiff
    · have hstep : nearestPriceAux t (p :: l) (best, bestDiff)
          = nearestPriceAux t l (p.priceUsd, |t - p.tMs|) := by
        simp only [nearestPriceAux]
        rw [if_pos hd]
      rcases ih p.priceUsd |t - p.tMs| with ⟨heq, hall⟩ | ⟨i, heq, hlt, hmin, hfirst⟩
      · refine Or.inr ⟨⟨0, Nat.succ_pos _⟩, ?_, hd, ?_, ?_⟩
        · rw [hstep, heq]
          rfl
        · intro j
          obtain ⟨jv, hjlt⟩ := j
          cases jv with
          | zero => exact le_refl _
          | succ k => exact hall (l.get ⟨k, Nat.lt_of_succ_lt_succ hjlt⟩) (List.get_mem _ _ _)
        · intro j hj
          exact absurd hj (Nat.not_lt_zero _)
      · refine Or.inr ⟨i.succ, ?_, lt_trans hlt hd, ?_, ?_⟩
        · rw [hstep, heq]
          rfl
        · intro j
          obtain ⟨jv, hjlt⟩ := j
          cases jv with
          | zero => exact le_of_lt hlt
          | succ k => exact hmin ⟨k, Nat.lt_of_succ_lt_succ hjlt⟩
        · intro j hj
          obtain ⟨jv, hjlt⟩ := j
          cases jv with
          | zero => exact hlt
          | succ k =>
            exact hfirst ⟨k, Nat.lt_of_succ_lt_succ hjlt⟩ (Nat.lt_of_succ_lt_succ hj)
    · have hstep : nearestPriceAux t (p :: l) (best, bestDiff)
          = nearestPriceAux t l (best, bestDiff) := by
        simp only [nearestPriceAux]
        rw [if_neg hd]
      rcases ih best bestDiff with ⟨heq, hall⟩ | ⟨i, heq, hlt, hmin, hfirst⟩
      · refine Or.inl ⟨by rw [hstep, heq], ?_⟩
        intro q hq
        rcases List.mem_cons.mp hq with hq0 | hq1
        · rw [hq0]
          exact not_lt.mp hd
        · exact hall q hq1
      · refine Or.inr ⟨i.succ, ?_, hlt, ?_, ?_⟩
        · rw [hstep, heq]
          rfl
        · intro j
          obtain ⟨jv, hjlt⟩ := j
          cases jv with
          | zero => exact le_of_lt (lt_of_lt_of_le hlt (not_lt.mp hd))
          | succ k => exact hmin ⟨k, Nat.lt_of_succ_lt_succ hjlt⟩
        · intro j hj
          obtain ⟨jv, hjlt⟩ := j
          cases jv with
          | zero => exact lt_of_lt_of_le hlt (not_lt.mp hd)
          | succ k =>
            exact hfirst ⟨k, Nat.lt_of_succ_lt_succ hjlt⟩ (Nat.lt_of_succ_lt_succ hj)

/-- Claim C7: on every non-empty price series and target time, the
nearest-price lookup returns the price of a point whose absolute time
difference to the target is minimal over the whole series, and among
the points attaining that minimum it is the first in iteration order
(every strictly earlier point has a strictly larger difference); on a
single-point series it returns that point's price for any query
time. -/
theorem c7_nearestPrice_first_min (p0 : PricePoint) (rest : List PricePoint)
    (targetMs : ℚ) :
    (∃ i : Fin (p0 :: rest).length,
      nearestPrice (p0 :: rest) targetMs = ((p0 :: rest).get i).priceUsd
      ∧ (∀ j : Fin (p0 :: rest).length,
          |targetMs - ((p0 :: rest).get i).tMs| ≤ |targetMs - ((p0 :: rest).get j).tMs|)
      ∧ (∀ j : Fin (p0 :: rest).length, (j : ℕ) < (i : ℕ) →
          |targetMs - ((p0 :: rest).get i).tMs| < |targetMs - ((p0 :: rest).get j).tMs|))
    ∧ nearestPrice [p0] targetMs = p0.priceUsd := by
  constructor
  · have hdef : nearestPrice (p0 :: rest) targetMs
        = (nearestPriceAux targetMs rest (p0.priceUsd, |targetMs - p0.tMs|)).1 := rfl
    rcases nearestPriceAux_spec targetMs rest p0.priceUsd |targetMs - p0.tMs|
      with ⟨heq, hall⟩ | ⟨i, heq, hlt, hmin, hfirst⟩
    · refine ⟨⟨0, Nat.succ_pos _⟩, ?_, ?_, ?_⟩
      · rw [hdef, heq]
        rfl
      · intro j
        obtain ⟨jv, hjlt⟩ := j
        cases jv with
        | zero => exact le_refl _
        | succ k => exact hall (rest.get ⟨k, Nat.lt_of_succ_lt_succ hjlt⟩) (List.get_mem _ _ _)
      · intro j hj
        exact absurd hj (Nat.not_lt_zero _)
    · refine ⟨i.succ, ?_, ?_, ?_⟩
      · rw [hdef, heq]
        rfl
      · intro j
        obtain ⟨jv, hjlt⟩ := j
        cases jv with
        | zero => exact le_of_lt hlt
        | succ k => exact hmin ⟨k, Nat.lt_of_succ_lt_succ hjlt⟩
      · intro j hj
        obtain ⟨jv, hjlt⟩ := j
        cases jv with
        | zero => exact hlt
        | succ k =>
          exact hfirst ⟨k, Nat.lt_of_succ_lt_succ hjlt⟩ (Nat.lt_of_succ_lt_succ hj)
  · rfl

/-- Witness for C7: on the single-point series [(0, 3)] the lookup
returns 3 at query time 100. -/
theorem c7_nearestPrice_first_min_witness :
    nearestPrice [PricePoint.mk 0 3] 100 = (PricePoint.mk 0 3).priceUsd :=
  (c7_nearestPrice_first_min (PricePoint.mk 0 3) [] 100).2

/-- Characterization of the pagination loop, generalized over the
starting request index: if the first `k` pages starting at `page` all
continue pagination and either the fuel runs out at `k` or page `k`
stops it, then the loop returns exactly the concatenation of the pages
it consumed and the cursors it sent. -/
theorem fetchAllAux_spec (pages : Nat → Option (List Tx)) :
    ∀ (k fuel page : Nat), k ≤ fuel →
      (∀ i, i < k → pageContinues (pages (page + i)) = true) →
      (k = fuel ∨ pageContinues (pages (page + k)) = false) →
      fetchAllAux pages fuel page (pageCursor pages page)
        = ((List.range k).flatMap (fun i => pageContrib (pages (page + i)))
            ++ (if k < fuel then pageContrib (pages (page + k)) else []),
           (List.range (min (k + 1) fuel)).map (fun i => pageCursor pages (page + i))) := by
  intro k
  induction k with
  | zero =>
    intro fuel page _ _ hstop
    rcases hstop with h0 | hbrk
    · subst h0
      simp [fetchAllAux]
    · cases fuel with
      | zero => simp [fetchAllAux]
      | succ f =>
        rw [Nat.add_zero] at hbrk
        have hRHS : ((List.range 0).flatMap (fun i => pageContrib (pages (page + i)))
              ++ (if 0 < f + 1 then pageContrib (pages (page + 0)) else []),
            (List.range (min (0 + 1) (f + 1))).map (fun i => pageCursor pages (page + i)))
            = (pageContrib (pages page), [pageCursor pages page]) := by
          have hmin1 : min (0 + 1) (f + 1) = 1 := by omega
          rw [hmin1, show List.range 1 = [0] from rfl]
          simp
        rw [hRHS]
        cases hpg : pages page with
        | none =>
          simp only [fetchAllAux, hpg]
          rfl
        | some batch =>
          simp only [fetchAllAux, hpg]
          by_cases hlen0 : batch.length = 0
          · rw [if_pos hlen0]
            have hbe : batch = [] := List.length_eq_zero.mp hlen0
            subst hbe
            rfl
          · rw [if_neg hlen0]
            rw [hpg] at hbrk
            cases hlast : batch.getLast? with
            | none =>
              exact absurd (List.getLast?_eq_none_iff.mp hlast)
                (fun h => hlen0 (by rw [h]; rfl))
            | some last =>
              simp only [pageContinues, hlast] at hbrk
              dsimp only
              by_cases hsig : last.signature.getD "" = ""
              · rw [if_pos hsig]
                rfl
              · by_cases hlen : batch.length < 90
                · rw [if_neg hsig, if_pos hlen]
                  rfl
                · rw [if_neg hsig, if_neg hlen] at hbrk
                  cases hbrk
  | succ j ihj =>
    intro fuel page hk hcont hstop
    cases fuel with
    | zero => omega
    | succ f =>
      have hc0 : pageContinues (pages page) = true := by
        have h := hcont 0 (Nat.succ_pos _)
        rwa [Nat.add_zero] at h
      cases hpg : pages page with
      | none => rw [hpg] at hc0; cases hc0
      | some batch =>
        rw [hpg] at hc0
        cases hlast : batch.getLast? with
        | none =>
          simp only [pageContinues, hlast] at hc0
          exact Bool.noConfusion hc0
        | some last =>
          simp only [pageContinues, hlast] at hc0
          by_cases hsig : last.signature.getD "" = ""
          · rw [if_pos hsig] at hc0; cases hc0
          · by_cases hlen : batch.length < 90
            · rw [if_neg hsig, if_pos hlen] at hc0; cases hc0
            · have hlen0 : ¬ batch.length = 0 := by
                intro h0
                exact hlen (by omega)
              have hcur : pageCursor pages (page + 1) = some (last.signature.getD "") := by
                simp only [pageCursor, hpg]
                rw [show (some batch).getD [] = batch from rfl, hlast]
              have hstep : fetchAllAux pages (f + 1) page (pageCursor pages page)
                  = (batch
                      ++ (fetchAllAux pages f (page + 1) (some (last.signature.getD ""))).1,
                     pageCursor pages page
                      :: (fetchAllAux pages f (page + 1) (some (last.signature.getD ""))).2) := by
                simp only [fetchAllAux, hpg]
                rw [if_neg hlen0, hlast]
                dsimp only
                rw [if_neg hsig, if_neg hlen]
              have hIH := ihj f (page + 1) (Nat.le_of_succ_le_succ hk)
                (fun i hi => by
                  have h := hcont (i + 1) (Nat.succ_lt_succ hi)
                  rwa [show page + (i + 1) = page + 1 + i by omega] at h)
                (by
                  rcases hstop with h | h
                  · exact Or.inl (Nat.succ_injective h)
                  · refine Or.inr ?_
                    rwa [show page + (j + 1) = page + 1 + j by omega] at h)
              rw [hstep, ← hcur, hIH]
              have hfun1 : (fun i => pageContrib (pages (page + 1 + i)))
                  = fun i => pageContrib (pages (page + Nat.succ i)) := by
                funext i
                have hi : page + 1 + i = page + Nat.succ i := by omega
                rw [hi]
              have hfun2 : (fun i => pageCursor pages (page + 1 + i))
                  = fun i => pageCursor pages (page + Nat.succ i) := by
                funext i
                have hi : page + 1 + i = page + Nat.succ i := by omega
                rw [hi]
              refine Prod.ext ?_ ?_
              · show batch
                    ++ ((List.range j).flatMap (fun i => pageContrib (pages (page + 1 + i)))
                        ++ (if j < f then pageContrib (pages (page + 1 + j)) else []))
                  = (List.range (j + 1)).flatMap (fun i => pageContrib (pages (page + i)))
                      ++ (if j + 1 < f + 1 then pageContrib (pages (page + (j + 1))) else [])
                rw [List.range_succ_eq_map, List.flatMap_cons, List.flatMap_map, hfun1]
                have hbatch : pageContrib (pages (page + 0)) = batch := by
                  rw [Nat.add_zero, hpg]
                  rfl
                rw [hbatch, List.append_assoc]
                have hiff : (if j < f then pageContrib (pages (page + 1 + j)) else [])
                    = (if j + 1 < f + 1 then pageContrib (pages (page + (j + 1))) else []) := by
                  by_cases hjf : j < f
                  · rw [if_pos hjf, if_pos (Nat.succ_lt_succ hjf)]
                    congr 2
                    omega
                  · rw [if_neg hjf, if_neg (fun h => hjf (Nat.lt_of_succ_lt_succ h))]
                rw [hiff]
              · show pageCursor pages page
                    :: (List.range (min (j + 1) f)).map (fun i => pageCursor pages (page + 1 + i))
                  = (List.range (min (j + 1 + 1) (f + 1))).map
                      (fun i => pageCursor pages (page + i))
                have hminsucc : min (j + 1 + 1) (f + 1) = min (j + 1) f + 1 :=
                  Nat.succ_min_succ (j + 1) f
                rw [hminsucc, List.range_succ_eq_map, List.map_cons, List.map_map]
                rw [Nat.add_zero]
                congr 1
                rw [hfun2]
                rfl

/-- Claim C5: pagination ends exactly at the first page that is empty
or not an array, has no (truthy) signature on its last item, or is
smaller than the full page size of 90 — and in any case after at most
`maxPages` requests even if pages remain full size.  The result is the
concatenation, in page order, of every consumed page (a non-array page
contributes nothing; the breaking page is still appended), and request
`i+1` carries as cursor the signature of the last transaction of page
`i`, the first request carrying none. -/
theorem c5_pagination_characterization (pages : Nat → Option (List Tx))
    (maxPages k : Nat) (hk : k ≤ maxPages)
    (hcont : ∀ i, i < k → pageContinues (pages i) = true)
    (hstop : k = maxPages ∨ pageContinues (pages k) = false) :
    fetchAllEnhancedTransactions pages maxPages
      = ((List.range k).flatMap (fun i => pageContrib (pages i))
          ++ (if k < maxPages then pageContrib (pages k) else []),
         (List.range (min (k + 1) maxPages)).map (pageCursor pages)) := by
  have h := fetchAllAux_spec pages k maxPages 0 hk
    (fun i hi => by simpa using hcont i hi)
    (by simpa using hstop)
  have h0 : pageCursor pages 0 = none := rfl
  rw [fetchAllEnhancedTransactions, ← h0, h]
  simp

def c5PagesExample : Nat → Option (List Tx) := fun n =>
  if n = 0 then some (List.replicate 90 (Tx.mk 0 none none (some "a")))
  else if n = 1 then some [Tx.mk 1 none none (some "b")]
  else none

/-- Witness for C5: a full first page of 90 transactions (last
signature "a") followed by a short page of one transaction stops
pagination after two requests; the result is both pages concatenated
and the second request's cursor is "a". -/
theorem c5_pagination_characterization_witness :
    fetchAllEnhancedTransactions c5PagesExample 20
      = (List.replicate 90 (Tx.mk 0 none none (some "a")) ++ [Tx.mk 1 none none (some "b")],
         [none, some "a"]) := by
  have h := c5_pagination_characterization c5PagesExample 20 1 (by omega)
    (by
      intro i hi
      have h0 : i = 0 := by omega
      subst h0
      decide)
    (Or.inr (by decide))
  rw [h]
  decide

/-- Claim C3 (counterexample): the claim says that when some step of
the fast cycle throws, every sub-record keeps its pre-run value.  In
the code, `cache.burn` is assigned as soon as the supply fetch
succeeds; if the later transaction-history fetch then throws, the burn
sub-record has already been replaced.  Concretely: starting from a
snapshot with zeroed burn stats, a run whose supply fetch returns
400000000 and whose history fetch throws leaves the burn sub-record
different from its pre-run value. -/
theorem c3_counterexample :
    (fetchAndCacheData (Except.ok 400000000) (Except.error ()) []
        (ForecastStats.mk 0 0 0 0)
        (Cache.mk (BurnStats.mk 0 0 0) (WalletStats.mk 0 0 0 7 9)
          (ForecastStats.mk 0 0 0 0) 0) 1000).burn
      ≠ (Cache.mk (BurnStats.mk 0 0 0) (WalletStats.mk 0 0 0 7 9)
          (ForecastStats.mk 0 0 0 0) 0).burn := by
  simp only [fetchAndCacheData]
  norm_num [BurnStats.mk.injEq, TOKEN_TOTAL_SUPPLY]

/-- Claim C3 (amended): when the supply fetch fails, the whole
snapshot keeps its previous values and only the timestamp advances;
but when a step after the supply fetch fails, the burn sub-record has
already been replaced with the freshly computed supply/burn stats
while the wallet and forecast sub-records keep their previous values
and the timestamp advances. -/
theorem c3_amended_cycle_frame (supplyRes : Except Unit ℚ) (txsRes : Except Unit (List Tx))
    (hist : List PricePoint) (fc : ForecastStats) (c : Cache) (now : ℤ) :
    (supplyRes = Except.error () →
      fetchAndCacheData supplyRes txsRes hist fc c now = { c with lastUpdated := now })
    ∧ (∀ s, supplyRes = Except.ok s → txsRes = Except.error () →
      fetchAndCacheData supplyRes txsRes hist fc c now
        = { c with
            burn := BurnStats.mk (TOKEN_TOTAL_SUPPLY - s) s
              ((TOKEN_TOTAL_SUPPLY - s) / TOKEN_TOTAL_SUPPLY * 100),
            lastUpdated := now }) := by
  constructor
  · intro h
    subst h
    rfl
  · intro s hs ht
    subst hs
    subst ht
    rfl

/-- Witness for the amended C3: supply 400000000 succeeds, the history
fetch throws, and the resulting snapshot has fresh burn stats, the old
wallet and forecast sub-records, and the new timestamp. -/
theorem c3_amended_cycle_frame_witness :
    fetchAndCacheData (Except.ok 400000000) (Except.error ()) [] (ForecastStats.mk 0 0 0 0)
        (Cache.mk (BurnStats.mk 0 0 0) (WalletStats.mk 0 0 0 7 9)
          (ForecastStats.mk 0 0 0 0) 0) 5
      = Cache.mk
          (BurnStats.mk (TOKEN_TOTAL_SUPPLY - 400000000) 400000000
            ((TOKEN_TOTAL_SUPPLY - 400000000) / TOKEN_TOTAL_SUPPLY * 100))
          (WalletStats.mk 0 0 0 7 9) (ForecastStats.mk 0 0 0 0) 5 :=
  (c3_amended_cycle_frame (Except.ok 400000000) (Except.error ()) []
    (ForecastStats.mk 0 0 0 0)
    (Cache.mk (BurnStats.mk 0 0 0) (WalletStats.mk 0 0 0 7 9)
      (ForecastStats.mk 0 0 0 0) 0) 5).2 400000000 rfl rfl

/-- Claim C9: every successful fast-cycle run writes the wallet
sub-record with the two spot-price fields copied unchanged from the
snapshot as it was before the run; and with an empty transaction
history the wallet sub-record reports zero fees and zero purchases
while the cached price fields are preserved. -/
theorem c9_fast_cycle_preserves_prices (s : ℚ) (txs : List Tx) (hist : List PricePoint)
    (fc : ForecastStats) (c : Cache) (now : ℤ) :
    ((fetchAndCacheData (Except.ok s) (Except.ok txs) hist fc c now).wallet.tokenPriceUsd
        = c.wallet.tokenPriceUsd
      ∧ (fetchAndCacheData (Except.ok s) (Except.ok txs) hist fc c now).wallet.solPriceUsd
        = c.wallet.solPriceUsd)
    ∧ (txs = [] →
        (fetchAndCacheData (Except.ok s) (Except.ok txs) hist fc c now).wallet
          = WalletStats.mk 0 0 0 c.wallet.tokenPriceUsd c.wallet.solPriceUsd) := by
  refine ⟨⟨rfl, rfl⟩, ?_⟩
  intro h
  subst h
  simp [fetchAndCacheData, extractSolReceipts, computeTokenFlows]

/-- Witness for C9: starting from cached prices 7 and 9, a successful
run over an empty history produces the zero-fee zero-purchase wallet
sub-record with both prices intact. -/
theorem c9_fast_cycle_preserves_prices_witness :
    (fetchAndCacheData (Except.ok 1) (Except.ok []) [] (ForecastStats.mk 0 0 0 0)
        (Cache.mk (BurnStats.mk 0 0 0) (WalletStats.mk 1 2 3 7 9)
          (ForecastStats.mk 0 0 0 0) 0) 3).wallet
      = WalletStats.mk 0 0 0 7 9 :=
  (c9_fast_cycle_preserves_prices 1 [] [] (ForecastStats.mk 0 0 0 0)
    (Cache.mk (BurnStats.mk 0 0 0) (WalletStats.mk 1 2 3 7 9)
      (ForecastStats.mk 0 0 0 0) 0) 3).2 rfl

/-- Claim C4: evaluation of the historical-price memoizer.  The fresh
path and the fetch-and-overwrite path behave as the claim says (first
and second/third conjuncts), but the claimed stale fallback does not
exist: in the last conjunct the on-disk file holds the non-empty
series [(0, 1)] and is merely stale (age exactly the 6-hour window),
the network fetch fails, and the call returns the empty series rather
than the stale data — the source's `cachedData` is only ever assigned
on the fresh path, which returns immediately, so the catch block's
`cachedData || []` is always `[]`. -/
theorem c4_memoizer_eval :
    fetchSolHistoricalPrices (some (FileInfo.mk 0 (some [PricePoint.mk 0 1]))) 1
        (Except.error ()) true
      = HistFetchOut.mk [PricePoint.mk 0 1] false none
    ∧ fetchSolHistoricalPrices none 0 (Except.ok [PricePoint.mk 5 2]) true
      = HistFetchOut.mk [PricePoint.mk 5 2] true (some [PricePoint.mk 5 2])
    ∧ fetchSolHistoricalPrices (some (FileInfo.mk 0 (some [PricePoint.mk 0 1])))
        HISTORICAL_CACHE_DURATION_MS (Except.ok [PricePoint.mk 5 2]) true
      = HistFetchOut.mk [PricePoint.mk 5 2] true (some [PricePoint.mk 5 2])
    ∧ fetchSolHistoricalPrices (some (FileInfo.mk 0 (some [PricePoint.mk 0 1])))
        HISTORICAL_CACHE_DURATION_MS (Except.error ()) true
      = HistFetchOut.mk [] true none := by
  refine ⟨?_, ?_, ?_, ?_⟩ <;>
    norm_num [fetchSolHistoricalPrices, HISTORICAL_CACHE_DURATION_MS]

/-- Claim C10: a slow-cycle run that actually fires (cycle counter a
multiple of 10) writes whatever the price fetchers produced into the
snapshot and advances the timestamp — and a failed, missing or zero
upstream quote produces 0, so a previously cached non-zero price is
overwritten with 0; the fast cycle's keep-previous-value policy is not
applied to the price fields. -/
theorem c10_slow_cycle_zero_overwrite (cyc : Nat) (jupResp solResp : Except Unit (Option ℚ))
    (c : Cache) (now : ℤ)
    (hcyc : cyc % 10 = 0)
    (hjup : jupResp = Except.error () ∨ jupResp = Except.ok none
      ∨ jupResp = Except.ok (some 0))
    (hsol : solResp = Except.error () ∨ solResp = Except.ok none
      ∨ solResp = Except.ok (some 0)) :
    (fetchTokenPriceStaggered cyc jupResp solResp c now).wallet.tokenPriceUsd = 0
    ∧ (fetchTokenPriceStaggered cyc jupResp solResp c now).wallet.solPriceUsd = 0
    ∧ (fetchTokenPriceStaggered cyc jupResp solResp c now).lastUpdated = now := by
  have hcond : ¬ (cyc % 10 ≠ 0) := by omega
  refine ⟨?_, ?_, ?_⟩
  · simp only [fetchTokenPriceStaggered, if_neg hcond]
    rcases hjup with h | h | h <;> subst h <;> rfl
  · simp only [fetchTokenPriceStaggered, if_neg hcond]
    rcases hsol with h | h | h <;> subst h <;> rfl
  · simp only [fetchTokenPriceStaggered, if_neg hcond]

/-- Witness for C10: on cycle 0 with both upstream fetches failing,
the previously cached prices 7 and 9 are overwritten with 0 and the
timestamp becomes 11. -/
theorem c10_slow_cycle_zero_overwrite_witness :
    (0 : Nat) % 10 = 0
    ∧ (fetchTokenPriceStaggered 0 (Except.error ()) (Except.error ())
        (Cache.mk (BurnStats.mk 0 0 0) (WalletStats.mk 0 0 0 7 9)
          (ForecastStats.mk 0 0 0 0) 0) 11).wallet.tokenPriceUsd = 0
    ∧ (fetchTokenPriceStaggered 0 (Except.error ()) (Except.error ())
        (Cache.mk (BurnStats.mk 0 0 0) (WalletStats.mk 0 0 0 7 9)
          (ForecastStats.mk 0 0 0 0) 0) 11).lastUpdated = 11 := by
  have h := c10_slow_cycle_zero_overwrite 0 (Except.error ()) (Except.error ())
    (Cache.mk (BurnStats.mk 0 0 0) (WalletStats.mk 0 0 0 7 9)
      (ForecastStats.mk 0 0 0 0) 0) 11 rfl (Or.inl rfl) (Or.inl rfl)
  exact ⟨rfl, h.1, h.2.2⟩

end ASDFBurnTracker
